import Mathlib

/-
Shallow embedding of the ngx-reactive-forms-generator core (src/index.ts).

The library keeps a process-wide registry
  METADATA : type -> formId -> FormGroup
mutated by decorator side effects and read by two accessors.  FormGroup
objects have reference semantics (a nested group is the same object as the
registered one), so the embedding uses an explicit heap: `St.heap` is a list
of `GroupData` and a group identifier `GId` is an index into it; two fields
hold "the same form group object" exactly when they hold the same `GId`.
Leaf controls (`FormControl`) are never shared between groups in the source
(each decorator constructs a fresh one per group), so they are stored inline.

JavaScript behaviours that matter to the claims are modelled explicitly:
  - object property maps are insertion-ordered association lists;
  - reading a property of `undefined` throws, modelled by `Except Unit`;
  - truthiness: the empty string is falsy, an empty array is truthy;
  - Angular's addControl does not replace an existing control, addValidators
    and addAsyncValidators skip validators already present (by reference;
    validator functions are modelled as opaque Nat identifiers).
-/

namespace NgxForms

/-- JavaScript runtime values as far as control values are concerned:
undefined, primitive values (abstracted as numbers and strings), and the
plain-object snapshots Angular produces for a group's composite value. -/
inductive JSVal where
  | undefVal : JSVal
  | num : Nat → JSVal
  | str : String → JSVal
  | obj : List (String × JSVal) → JSVal
deriving Repr

/-- Group identifier: an index into the heap of form-group objects. -/
abbrev GId := Nat

/-- The data of an Angular FormControl as used by the library: its current
value, its synchronous validators and its asynchronous validators, each
validator an opaque identifier standing for the function reference. -/
structure FormControlData where
  value : JSVal
  validators : List Nat
  asyncVals : List Nat
deriving Repr

/-- A child of a form group: an inline leaf control or a reference to a
form-group object on the heap (as installed by NestedFormGroup). -/
inductive Child where
  | ctrl : FormControlData → Child
  | group : GId → Child
deriving Repr

/-- The data of an Angular FormGroup object: its insertion-ordered controls
map and its class-level synchronous and asynchronous validators. -/
structure GroupData where
  controls : List (String × Child)
  validators : List Nat
  asyncVals : List Nat
deriving Repr

/-- A freshly constructed `new FormGroup({})`. -/
def emptyGroup : GroupData := ⟨[], [], []⟩

/-- A model class: `key` is its identity (the registry key), `name` its
class name (used for the default form id), and `defaults` the own properties
of `new type()` (what `new type()[propName]` reads). -/
structure Ty where
  key : Nat
  name : String
  defaults : List (String × JSVal)

/-- The `FormIdType` of the source: `string | string[] | undefined`. -/
inductive FormIdType where
  | undefVal : FormIdType
  | one : String → FormIdType
  | many : List String → FormIdType

/-- The exported DEFAULT_GROUP sentinel string. -/
def DEFAULT_GROUP : String := "!A!N!S!R!!!THIS_IS_THE_DEFAULT_GROUP_ID!!A!N!S!R!"

/-- The whole mutable state: the heap of form-group objects and the METADATA
registry, an insertion-ordered map from type key to an insertion-ordered map
from form id to group identifier. -/
structure St where
  heap : List GroupData
  meta : List (Nat × List (String × GId))
deriving Repr

/-- The state before any decorator has run: `const METADATA: any = {}`. -/
def emptySt : St := ⟨[], []⟩

/-- Property read on the registry object: `METADATA[k]` for a type key. -/
def mget (m : List (Nat × List (String × GId))) (k : Nat) :
    Option (List (String × GId)) :=
  (m.find? (fun kv => kv.1 == k)).map (fun kv => kv.2)

/-- Registry read on a state. -/
def metaGet (s : St) (k : Nat) : Option (List (String × GId)) :=
  mget s.meta k

/-- Property write that keeps the key's position (JavaScript assignment to
an existing key); only used on keys that are present. -/
def outerSet (m : List (Nat × List (String × GId))) (k : Nat)
    (v : List (String × GId)) : List (Nat × List (String × GId)) :=
  m.map (fun kv => if kv.1 = k then (k, v) else kv)

/-- The registered group id of a (type key, form id) pair, if any. -/
def entry (s : St) (k : Nat) (f : String) : Option GId :=
  (metaGet s k).bind (fun inner => inner.lookup f)

/-- Heap read: the form-group object a group id refers to. -/
def getGroup (s : St) (g : GId) : Option GroupData :=
  s.heap.get? g

/-- Heap update at one group id; other objects are untouched. -/
def setGroup (s : St) (g : GId) (fn : GroupData → GroupData) : St :=
  { s with heap :=
      match s.heap.get? g with
      | none => s.heap
      | some gd => s.heap.set g (fn gd) }

/-- Source normalizeFormId: `!!formId ? (Array.isArray(formId) ? formId :
[formId]) : [type.name]`, then the DEFAULT_GROUP sentinel is mapped to the
type's own name.  The empty string is falsy; an empty array is truthy. -/
def normalizeFormId (t : Ty) (fid : FormIdType) : List String :=
  (match fid with
    | .undefVal => [t.name]
    | .one f => if f = "" then [t.name] else [f]
    | .many l => l
  ).map (fun f => if f = DEFAULT_GROUP then t.name else f)

/-- First half of initializeMetadata:
`if (!METADATA[target]) METADATA[target] = {}`. -/
def ensureType (s : St) (k : Nat) : St :=
  match metaGet s k with
  | some _ => s
  | none => { s with meta := s.meta ++ [(k, [])] }

/-- Body of initializeMetadata's forEach for one form id:
`if (!METADATA[target][f]) METADATA[target][f] = new FormGroup({})`.
Allocates a fresh group object on the heap when the entry is absent. -/
def addEntry (s : St) (k : Nat) (f : String) : St :=
  match metaGet s k with
  | none => s
  | some inner =>
    match inner.lookup f with
    | some _ => s
    | none =>
      { heap := s.heap ++ [emptyGroup],
        meta := outerSet s.meta k (inner ++ [(f, s.heap.length)]) }

/-- Source initializeMetadata: ensure the type slot, then ensure a group for
every normalized form id. -/
def initializeMetadata (t : Ty) (fid : FormIdType) (s : St) : St :=
  (normalizeFormId t fid).foldl (fun acc f => addEntry acc t.key f)
    (ensureType s t.key)

/-- One step of getFormGroups: `METADATA[target][f]` — throws when
`METADATA[target]` is undefined (property read on undefined). -/
def lookupEach (s : St) (k : Nat) : List String → Except Unit (List (Option GId))
  | [] => .ok []
  | f :: rest =>
    match metaGet s k with
    | none => .error ()
    | some inner =>
      match lookupEach s k rest with
      | .error e => .error e
      | .ok r => .ok (inner.lookup f :: r)

/-- Source getFormGroups: `normalizeFormId(target, formId).map(f =>
METADATA[target][f])`.  When the normalized list is empty the registry
object is never dereferenced, so no error can occur. -/
def getFormGroups (s : St) (t : Ty) (fid : FormIdType) :
    Except Unit (List (Option GId)) :=
  lookupEach s t.key (normalizeFormId t fid)

/-- The forEach over the groups returned by getFormGroups: calling a method
on an `undefined` entry throws. -/
def applyToGroups (fn : St → GId → Except Unit St) :
    St → List (Option GId) → Except Unit St
  | s, [] => .ok s
  | _, none :: _ => .error ()
  | s, some g :: rest =>
    match fn s g with
    | .error e => .error e
    | .ok s1 => applyToGroups fn s1 rest

/-- Angular addValidators / addAsyncValidators: append each validator that
is not already present (presence is by function reference). -/
def addIfAbsent (cur : List Nat) (vs : List Nat) : List Nat :=
  vs.foldl (fun acc v => if v ∈ acc then acc else acc ++ [v]) cur

/-- Add class-level synchronous validators to one group object. -/
def groupAddValidators (vs : List Nat) (gd : GroupData) : GroupData :=
  { gd with validators := addIfAbsent gd.validators vs }

/-- Add class-level asynchronous validators to one group object. -/
def groupAddAsyncValidators (vs : List Nat) (gd : GroupData) : GroupData :=
  { gd with asyncVals := addIfAbsent gd.asyncVals vs }

/-- Angular FormGroup.addControl: registers the child only when the name is
not already taken (it never replaces an existing control). -/
def groupAddControl (p : String) (c : Child) (gd : GroupData) : GroupData :=
  match gd.controls.lookup p with
  | some _ => gd
  | none => { gd with controls := gd.controls ++ [(p, c)] }

/-- Angular FormGroup.removeControl: deletes the named child if present. -/
def groupRemoveControl (p : String) (gd : GroupData) : GroupData :=
  { gd with controls := gd.controls.filter (fun e => e.1 != p) }

/-- In-place update of one named child, keeping its position (mutation of
the control object itself, as addAsyncValidators does on a leaf). -/
def controlsSet (l : List (String × Child)) (p : String) (c : Child) :
    List (String × Child) :=
  l.map (fun e => if e.1 = p then (p, c) else e)

/-- Angular AbstractControl.value of a child, with fuel bounding the depth
of nested-group traversal (the reachable registry is acyclic, and the fuel
is instantiated with the heap size, which bounds any acyclic chain). -/
def childValueF (s : St) (fuel : Nat) (c : Child) : JSVal :=
  match c with
  | .ctrl cd => cd.value
  | .group g =>
    match fuel with
    | 0 => .undefVal
    | n + 1 =>
      match s.heap.get? g with
      | none => .undefVal
      | some gd => .obj (gd.controls.map (fun e => (e.1, childValueF s n e.2)))
termination_by fuel

/-- The `ctrl?.value` read in FormControlTarget's re-registration branch. -/
def childValue (s : St) (c : Child) : JSVal :=
  childValueF s s.heap.length c

/-- The `ctrl?.asyncValidator` read there: the async validators carried by
the existing child (for a group child, the group object's). -/
def childAsyncVals (s : St) : Child → List Nat
  | .ctrl cd => cd.asyncVals
  | .group g =>
    match s.heap.get? g with
    | none => []
    | some gd => gd.asyncVals

/-- The `new type()[propName]` read: the default value of the field on a
freshly constructed instance, undefined when the property does not exist. -/
def newInstanceRead (t : Ty) (p : String) : JSVal :=
  (t.defaults.lookup p).getD .undefVal

/-- Decorator FormGroupTarget: just initializeMetadata. -/
def FormGroupTarget (t : Ty) (fid : FormIdType) (s : St) : Except Unit St :=
  .ok (initializeMetadata t fid s)

/-- Decorator FormGroupValidators: initialize, then addValidators on every
resolved group. -/
def FormGroupValidators (t : Ty) (vs : List Nat) (fid : FormIdType) (s : St) :
    Except Unit St :=
  let s1 := initializeMetadata t fid s
  match getFormGroups s1 t fid with
  | .error e => .error e
  | .ok gs =>
    applyToGroups (fun acc g => .ok (setGroup acc g (groupAddValidators vs)))
      s1 gs

/-- Decorator FormGroupAsyncValidators: initialize, then addAsyncValidators
on every resolved group. -/
def FormGroupAsyncValidators (t : Ty) (vs : List Nat) (fid : FormIdType)
    (s : St) : Except Unit St :=
  let s1 := initializeMetadata t fid s
  match getFormGroups s1 t fid with
  | .error e => .error e
  | .ok gs =>
    applyToGroups
      (fun acc g => .ok (setGroup acc g (groupAddAsyncValidators vs)))
      s1 gs

/-- Per-group body of FormControlTarget: if the field is absent, add a fresh
control with the default-instance value and the new validators; otherwise
remove the control and add a fresh one carrying the old control's current
value and its asyncValidator, with the new synchronous validators. -/
def fctStep (t : Ty) (p : String) (vs : List Nat) (acc : St) (g : GId) :
    Except Unit St :=
  match getGroup acc g with
  | none => .ok acc
  | some gd =>
    match gd.controls.lookup p with
    | none =>
      .ok (setGroup acc g
        (groupAddControl p (.ctrl ⟨newInstanceRead t p, vs, []⟩)))
    | some child =>
      .ok (setGroup acc g (fun gd0 =>
        groupAddControl p
          (.ctrl ⟨childValue acc child, vs, childAsyncVals acc child⟩)
          (groupRemoveControl p gd0)))

/-- Decorator FormControlTarget (property form; the constructor-parameter
ordinal branch resolves to a property name before reaching this logic). -/
def FormControlTarget (t : Ty) (p : String) (vs : List Nat) (fid : FormIdType)
    (s : St) : Except Unit St :=
  let s1 := initializeMetadata t fid s
  match getFormGroups s1 t fid with
  | .error e => .error e
  | .ok gs => applyToGroups (fctStep t p vs) s1 gs

/-- Per-group body of FormControlAsyncValidators: if the field is absent,
add a fresh control with no synchronous validators and the given async
validators; otherwise mutate the existing child in place by adding them. -/
def fcavStep (t : Ty) (p : String) (vs : List Nat) (acc : St) (g : GId) :
    Except Unit St :=
  match getGroup acc g with
  | none => .ok acc
  | some gd =>
    match gd.controls.lookup p with
    | none =>
      .ok (setGroup acc g
        (groupAddControl p (.ctrl ⟨newInstanceRead t p, [], vs⟩)))
    | some (.ctrl cd) =>
      let cd1 : FormControlData :=
        { cd with asyncVals := addIfAbsent cd.asyncVals vs }
      .ok (setGroup acc g (fun gd0 =>
        { gd0 with controls := controlsSet gd0.controls p (.ctrl cd1) }))
    | some (.group g') =>
      .ok (setGroup acc g' (groupAddAsyncValidators vs))

/-- Decorator FormControlAsyncValidators. -/
def FormControlAsyncValidators (t : Ty) (p : String) (vs : List Nat)
    (fid : FormIdType) (s : St) : Except Unit St :=
  let s1 := initializeMetadata t fid s
  match getFormGroups s1 t fid with
  | .error e => .error e
  | .ok gs => applyToGroups (fcavStep t p vs) s1 gs

/-- Per-host-group body of NestedFormGroup: look up the source groups (this
dereferences `METADATA[sourceType]`, throwing when the source type has no
registry slot), take the first, and install it only when present. -/
def nfgStep (src : Ty) (srcFid : Option String) (p : String) (acc : St)
    (g : GId) : Except Unit St :=
  match getFormGroups acc src
      (match srcFid with | none => .undefVal | some x => .one x) with
  | .error e => .error e
  | .ok nested =>
    match nested.head? with
    | some (some ng) => .ok (setGroup acc g (groupAddControl p (.group ng)))
    | _ => .ok acc

/-- Decorator NestedFormGroup. -/
def NestedFormGroup (host : Ty) (p : String) (src : Ty)
    (srcFid : Option String) (targetFid : FormIdType) (s : St) :
    Except Unit St :=
  let s1 := initializeMetadata host targetFid s
  match getFormGroups s1 host targetFid with
  | .error e => .error e
  | .ok gs => applyToGroups (nfgStep src srcFid p) s1 gs

/-- The key toFormGroup reads: `formId ? formId : type.name` (the empty
string is falsy; note that the DEFAULT_GROUP sentinel is NOT mapped here). -/
def toFormGroupKey (t : Ty) (fid : Option String) : String :=
  match fid with
  | some f => if f = "" then t.name else f
  | none => t.name

/-- Accessor toFormGroup: `return METADATA[type][f]` — throws when the type
has no registry slot, yields undefined when the form id is unregistered. -/
def toFormGroup (s : St) (t : Ty) (fid : Option String) :
    Except Unit (Option GId) :=
  match metaGet s t.key with
  | none => .error ()
  | some inner => .ok (inner.lookup (toFormGroupKey t fid))

/-- The runtime value toFormGroups returns: an array of groups, or — on the
empty-form-id-list branch — the inner registry object itself (`METADATA[t]`),
which is a form-id-keyed record, or undefined when the type is unknown. -/
inductive TFGResult where
  | arr : List (Option GId) → TFGResult
  | record : List (String × GId) → TFGResult
  | undefRes : TFGResult
deriving Repr, DecidableEq

/-- The JavaScript `Array.isArray` check on a toFormGroups result. -/
def TFGResult.isArr : TFGResult → Bool
  | .arr _ => true
  | _ => false

/-- Accessor toFormGroups.  With a nonempty list: `formIds.map(f =>
METADATA[t][f])` (throws when the type is unknown).  With an empty list:
`return METADATA[t]` — the registry record itself, not an array. -/
def toFormGroups (s : St) (t : Ty) (fids : List String) :
    Except Unit TFGResult :=
  match fids with
  | [] =>
    match metaGet s t.key with
    | none => .ok .undefRes
    | some inner => .ok (.record inner)
  | _ =>
    match lookupEach s t.key fids with
    | .error e => .error e
    | .ok l => .ok (.arr l)

/-- Well-formedness of a reachable state: within one type's registry slot,
distinct form ids refer to distinct group objects, and every registered
group id points into the heap. -/
def WF (s : St) : Prop :=
  (∀ kv ∈ s.meta, (kv.2.map Prod.snd).Nodup) ∧
  (∀ kv ∈ s.meta, ∀ e ∈ kv.2, e.2 < s.heap.length)

section AssocLemmas

variable {β : Type}

theorem lookup_append_of_none {l1 l2 : List (String × β)} {a : String}
    (h : l1.lookup a = none) : (l1 ++ l2).lookup a = l2.lookup a := by
  induction l1 with
  | nil => rfl
  | cons kv t ih =>
    simp only [List.lookup, List.cons_append] at h ⊢
    cases hk : (a == kv.1) with
    | true => simp [hk] at h
    | false => simp only [hk] at h ⊢; exact ih h

theorem lookup_append_of_some {l1 l2 : List (String × β)} {a : String} {b : β}
    (h : l1.lookup a = some b) : (l1 ++ l2).lookup a = some b := by
  induction l1 with
  | nil => simp [List.lookup] at h
  | cons kv t ih =>
    simp only [List.lookup, List.cons_append] at h ⊢
    cases hk : (a == kv.1) with
    | true => simpa [hk] using h
    | false => simp only [hk] at h ⊢; exact ih h

theorem mem_snd_of_lookup {l : List (String × β)} {a : String} {b : β}
    (h : l.lookup a = some b) : b ∈ l.map Prod.snd := by
  induction l with
  | nil => simp [List.lookup] at h
  | cons kv t ih =>
    simp only [List.lookup] at h
    cases hk : (a == kv.1) with
    | true => simp only [hk] at h; simp [← Option.some_inj.1 h]
    | false => simp only [hk] at h; simp [ih h]

theorem lookup_ne_of_nodup_snd {l : List (String × β)} {a b : String}
    {x y : β} (hnd : (l.map Prod.snd).Nodup) (ha : l.lookup a = some x)
    (hb : l.lookup b = some y) (hab : a ≠ b) : x ≠ y := by
  induction l with
  | nil => simp [List.lookup] at ha
  | cons kv t ih =>
    simp only [List.lookup] at ha hb
    simp only [List.map_cons, List.nodup_cons] at hnd
    cases hka : (a == kv.1) with
    | true =>
      have hbk : (b == kv.1) = false := by
        cases hbe : (b == kv.1) with
        | true =>
          exact absurd ((beq_iff_eq.1 hka).trans (beq_iff_eq.1 hbe).symm) hab
        | false => rfl
      simp only [hka] at ha
      simp only [hbk] at hb
      have : y ∈ t.map Prod.snd := mem_snd_of_lookup hb
      intro hxy
      exact hnd.1 (by rw [Option.some_inj.1 ha, hxy]; exact this)
    | false =>
      cases hkb : (b == kv.1) with
      | true =>
        simp only [hka] at ha
        simp only [hkb] at hb
        have : x ∈ t.map Prod.snd := mem_snd_of_lookup ha
        intro hxy
        exact hnd.1 (by rw [Option.some_inj.1 hb, ← hxy]; exact this)
      | false =>
        simp only [hka] at ha
        simp only [hkb] at hb
        exact ih hnd.2 ha hb

theorem lookup_filter_self {l : List (String × β)} {p : String} :
    (l.filter (fun e => e.1 != p)).lookup p = none := by
  induction l with
  | nil => rfl
  | cons kv t ih =>
    by_cases hk : kv.1 = p
    · simp [List.filter, hk, ih]
    · have h1 : (kv.1 != p) = true := by simp [hk]
      have h2 : (p == kv.1) = false := by simp [Ne.symm hk]
      simp [List.filter, h1, List.lookup, h2, ih]

end AssocLemmas

section RegistryLemmas

theorem mget_outerSet_self {m : List (Nat × List (String × GId))} {k : Nat}
    {i0 v : List (String × GId)} (h : mget m k = some i0) :
    mget (outerSet m k v) k = some v := by
  induction m with
  | nil => simp [mget] at h
  | cons kv t ih =>
    by_cases hk : kv.1 = k
    · simp [mget, outerSet, List.find?, hk]
    · have hb : (kv.1 == k) = false := by simp [hk]
      simp only [mget, List.find?, hb, Option.map] at h
      simp only [outerSet, List.map_cons, if_neg hk, mget, List.find?, hb]
      exact ih h

theorem mget_outerSet_ne {m : List (Nat × List (String × GId))} {k k' : Nat}
    {v : List (String × GId)} (h : k' ≠ k) :
    mget (outerSet m k v) k' = mget m k' := by
  induction m with
  | nil => rfl
  | cons kv t ih =>
    by_cases hk : kv.1 = k
    · have hb : ((k, v).1 == k') = false := by simp [Ne.symm h]
      have hb2 : (kv.1 == k') = false := by simp [hk, Ne.symm h]
      simp only [outerSet, List.map_cons, if_pos hk, mget, List.find?, hb, hb2]
      exact ih
    · simp only [outerSet, List.map_cons, if_neg hk, mget, List.find?]
      cases hb : (kv.1 == k') with
      | true => rfl
      | false => exact ih

theorem mget_append_single_self {m : List (Nat × List (String × GId))}
    {k : Nat} {v : List (String × GId)} (h : mget m k = none) :
    mget (m ++ [(k, v)]) k = some v := by
  induction m with
  | nil => simp [mget, List.find?]
  | cons kv t ih =>
    simp only [mget, List.find?] at h ⊢
    cases hb : (kv.1 == k) with
    | true => simp [hb] at h
    | false => simp only [hb, List.cons_append] at h ⊢; exact ih h

theorem mget_append_single_ne {m : List (Nat × List (String × GId))}
    {k k' : Nat} {v : List (String × GId)} (h : k' ≠ k) :
    mget (m ++ [(k, v)]) k' = mget m k' := by
  induction m with
  | nil =>
    have hb : (k == k') = false := by simp [Ne.symm h]
    simp [mget, List.find?, hb]
  | cons kv t ih =>
    simp only [mget, List.find?, List.cons_append] at ih ⊢
    cases hb : (kv.1 == k') with
    | true => rfl
    | false => exact ih

theorem metaGet_ensureType_self (s : St) (k : Nat) :
    metaGet (ensureType s k) k = some ((metaGet s k).getD []) := by
  cases h : metaGet s k with
  | some i => simp [ensureType, metaGet] at h ⊢; simp [h]
  | none =>
    simp only [ensureType, metaGet] at h ⊢
    rw [h]
    simpa using mget_append_single_self h

theorem metaGet_ensureType_ne (s : St) {k k' : Nat} (h : k' ≠ k) :
    metaGet (ensureType s k) k' = metaGet s k' := by
  cases hm : metaGet s k with
  | some i => simp only [ensureType, metaGet] at hm ⊢; rw [hm]
  | none =>
    simp only [ensureType, metaGet] at hm ⊢
    rw [hm]
    exact mget_append_single_ne h

theorem ensureType_of_isSome {s : St} {k : Nat}
    (h : (metaGet s k).isSome) : ensureType s k = s := by
  cases hm : metaGet s k with
  | some i => simp only [ensureType, metaGet] at hm ⊢; rw [hm]
  | none => rw [hm] at h; simp at h

theorem heap_ensureType (s : St) (k : Nat) :
    (ensureType s k).heap = s.heap := by
  cases hm : metaGet s k with
  | some i => simp only [ensureType, metaGet] at hm ⊢; rw [hm]
  | none => simp only [ensureType, metaGet] at hm ⊢; rw [hm]

theorem entry_ensureType_preserve {s : St} {k k' : Nat} {f' : String}
    {g : GId} (h : entry s k' f' = some g) :
    entry (ensureType s k) k' f' = some g := by
  by_cases hk : k' = k
  · subst hk
    cases hm : metaGet s k' with
    | some i =>
      rw [ensureType_of_isSome (by rw [hm]; rfl)]
      exact h
    | none => simp [entry, hm] at h
  · unfold entry
    rw [metaGet_ensureType_ne s hk]
    exact h

theorem addEntry_of_entry_some {s : St} {k : Nat} {f : String} {g : GId}
    (h : entry s k f = some g) : addEntry s k f = s := by
  unfold entry at h
  cases hm : metaGet s k with
  | none => simp [hm] at h
  | some inner =>
    rw [hm] at h
    simp only [Option.some_bind] at h
    simp [addEntry, hm, h]

theorem addEntry_of_metaGet_none {s : St} {k : Nat} {f : String}
    (h : metaGet s k = none) : addEntry s k f = s := by
  simp [addEntry, h]

theorem metaGet_addEntry_grow {s : St} {k : Nat} {f : String}
    {inner : List (String × GId)} (hm : metaGet s k = some inner)
    (hl : inner.lookup f = none) :
    addEntry s k f
      = St.mk (s.heap ++ [emptyGroup])
          (outerSet s.meta k (inner ++ [(f, s.heap.length)])) := by
  simp [addEntry, hm, hl]

theorem entry_addEntry_preserve {s : St} {k k' : Nat} {f f' : String}
    {g : GId} (h : entry s k' f' = some g) :
    entry (addEntry s k f) k' f' = some g := by
  cases hm : metaGet s k with
  | none => rw [addEntry_of_metaGet_none hm]; exact h
  | some inner =>
    cases hl : inner.lookup f with
    | some g0 =>
      rw [addEntry_of_entry_some (show entry s k f = some g0 by
        simp [entry, hm, hl])]
      exact h
    | none =>
      rw [metaGet_addEntry_grow hm hl]
      by_cases hk : k' = k
      · subst hk
        unfold entry at h ⊢
        rw [hm] at h
        simp only [Option.some_bind] at h
        unfold metaGet at hm ⊢
        dsimp only
        rw [mget_outerSet_self hm]
        simp only [Option.some_bind]
        exact lookup_append_of_some h
      · unfold entry at h ⊢
        unfold metaGet at h ⊢
        dsimp only
        rw [mget_outerSet_ne hk]
        exact h

theorem entry_addEntry_self {s : St} {k : Nat} {f : String}
    {inner : List (String × GId)} (hm : metaGet s k = some inner) :
    (entry (addEntry s k f) k f).isSome := by
  cases hl : inner.lookup f with
  | some g0 =>
    rw [addEntry_of_entry_some (show entry s k f = some g0 by
      simp [entry, hm, hl])]
    simp [entry, hm, hl]
  | none =>
    rw [metaGet_addEntry_grow hm hl]
    unfold entry
    unfold metaGet at hm ⊢
    dsimp only
    rw [mget_outerSet_self hm]
    simp only [Option.some_bind]
    rw [lookup_append_of_none hl]
    simp [List.lookup]

theorem metaGet_addEntry_isSome {s : St} {k k' : Nat} {f : String}
    (h : (metaGet s k').isSome) : (metaGet (addEntry s k f) k').isSome := by
  cases hm : metaGet s k with
  | none => rw [addEntry_of_metaGet_none hm]; exact h
  | some inner =>
    cases hl : inner.lookup f with
    | some g0 =>
      rw [addEntry_of_entry_some (show entry s k f = some g0 by
        simp [entry, hm, hl])]
      exact h
    | none =>
      rw [metaGet_addEntry_grow hm hl]
      by_cases hk : k' = k
      · subst hk
        unfold metaGet at hm ⊢
        dsimp only
        rw [mget_outerSet_self hm]
        rfl
      · unfold metaGet at h ⊢
        dsimp only
        rw [mget_outerSet_ne hk]
        exact h

theorem heap_addEntry_preserve {s : St} {k : Nat} {f : String} {g : GId}
    {gd : GroupData} (h : s.heap.get? g = some gd) :
    (addEntry s k f).heap.get? g = some gd := by
  cases hm : metaGet s k with
  | none => rw [addEntry_of_metaGet_none hm]; exact h
  | some inner =>
    cases hl : inner.lookup f with
    | some g0 =>
      rw [addEntry_of_entry_some (show entry s k f = some g0 by
        simp [entry, hm, hl])]
      exact h
    | none =>
      rw [metaGet_addEntry_grow hm hl]
      dsimp only
      rw [List.get?_eq_getElem?] at h ⊢
      rw [List.getElem?_append_left (List.getElem?_eq_some.1 h).1]
      exact h

end RegistryLemmas

section FoldLemmas

/-- The fold initializeMetadata performs over the normalized form ids. -/
def foldAdd (k : Nat) (s : St) (fs : List String) : St :=
  fs.foldl (fun acc f => addEntry acc k f) s

theorem initializeMetadata_eq (t : Ty) (fid : FormIdType) (s : St) :
    initializeMetadata t fid s
      = foldAdd t.key (ensureType s t.key) (normalizeFormId t fid) := rfl

theorem foldAdd_entry_preserve {k : Nat} {fs : List String} {s : St}
    {k' : Nat} {f' : String} {g : GId} (h : entry s k' f' = some g) :
    entry (foldAdd k s fs) k' f' = some g := by
  induction fs generalizing s with
  | nil => exact h
  | cons f rest ih => exact ih (entry_addEntry_preserve h)

theorem foldAdd_heap_preserve {k : Nat} {fs : List String} {s : St}
    {g : GId} {gd : GroupData} (h : s.heap.get? g = some gd) :
    (foldAdd k s fs).heap.get? g = some gd := by
  induction fs generalizing s with
  | nil => exact h
  | cons f rest ih => exact ih (heap_addEntry_preserve h)

theorem foldAdd_metaGet_isSome {k : Nat} {fs : List String} {s : St}
    {k' : Nat} (h : (metaGet s k').isSome) :
    (metaGet (foldAdd k s fs) k').isSome := by
  induction fs generalizing s with
  | nil => exact h
  | cons f rest ih => exact ih (metaGet_addEntry_isSome h)

theorem foldAdd_establishes {k : Nat} {fs : List String} {s : St}
    (hm : (metaGet s k).isSome) :
    ∀ f ∈ fs, (entry (foldAdd k s fs) k f).isSome := by
  induction fs generalizing s with
  | nil => intro f hf; simp at hf
  | cons f0 rest ih =>
    intro f hf
    rcases List.mem_cons.1 hf with hf | hf
    · subst hf
      obtain ⟨inner, hinner⟩ := Option.isSome_iff_exists.1 hm
      have h0 : (entry (addEntry s k f) k f).isSome :=
        entry_addEntry_self hinner
      obtain ⟨g, hg⟩ := Option.isSome_iff_exists.1 h0
      have hpres : entry (foldAdd k (addEntry s k f) rest) k f = some g :=
        foldAdd_entry_preserve hg
      simp [foldAdd, List.foldl_cons] at hpres ⊢
      rw [hpres]
      rfl
    · exact ih (metaGet_addEntry_isSome hm) f hf

theorem foldAdd_noop {k : Nat} {fs : List String} {s : St}
    (h : ∀ f ∈ fs, (entry s k f).isSome) : foldAdd k s fs = s := by
  induction fs with
  | nil => rfl
  | cons f rest ih =>
    obtain ⟨g, hg⟩ := Option.isSome_iff_exists.1 (h f (by simp))
    simp only [foldAdd, List.foldl_cons, addEntry_of_entry_some hg]
    exact ih (fun f' hf' => h f' (by simp [hf']))

theorem initializeMetadata_noop {t : Ty} {fid : FormIdType} {s : St}
    (hm : (metaGet s t.key).isSome)
    (h : ∀ f ∈ normalizeFormId t fid, (entry s t.key f).isSome) :
    initializeMetadata t fid s = s := by
  rw [initializeMetadata_eq, ensureType_of_isSome hm]
  exact foldAdd_noop h

theorem entry_initializeMetadata_preserve {t : Ty} {fid : FormIdType}
    {s : St} {k' : Nat} {f' : String} {g : GId}
    (h : entry s k' f' = some g) :
    entry (initializeMetadata t fid s) k' f' = some g := by
  rw [initializeMetadata_eq]
  exact foldAdd_entry_preserve (entry_ensureType_preserve h)

theorem heap_initializeMetadata_preserve {t : Ty} {fid : FormIdType}
    {s : St} {g : GId} {gd : GroupData} (h : s.heap.get? g = some gd) :
    (initializeMetadata t fid s).heap.get? g = some gd := by
  rw [initializeMetadata_eq]
  apply foldAdd_heap_preserve
  rw [heap_ensureType]
  exact h

end FoldLemmas

section OpLemmas

theorem normalizeFormId_undef (t : Ty) :
    normalizeFormId t .undefVal = [t.name] := by
  simp [normalizeFormId]

theorem normalizeFormId_one {t : Ty} {f : String} (h1 : f ≠ "")
    (h2 : f ≠ DEFAULT_GROUP) : normalizeFormId t (.one f) = [f] := by
  simp [normalizeFormId, h1, h2]

theorem normalizeFormId_many_nil (t : Ty) :
    normalizeFormId t (.many []) = [] := rfl

theorem getFormGroups_single {s : St} {t : Ty} {fid : FormIdType}
    {f : String} {inner : List (String × GId)}
    (hnorm : normalizeFormId t fid = [f]) (hm : metaGet s t.key = some inner) :
    getFormGroups s t fid = .ok [inner.lookup f] := by
  unfold getFormGroups
  rw [hnorm]
  simp [lookupEach, hm]

theorem setGroup_meta (s : St) (g : GId) (fn : GroupData → GroupData) :
    (setGroup s g fn).meta = s.meta := by
  unfold setGroup
  cases s.heap.get? g <;> rfl

theorem metaGet_setGroup (s : St) (g : GId) (fn : GroupData → GroupData)
    (k : Nat) : metaGet (setGroup s g fn) k = metaGet s k := by
  unfold metaGet
  rw [setGroup_meta]

theorem getGroup_setGroup_self {s : St} {g : GId} {gd : GroupData}
    (fn : GroupData → GroupData) (h : s.heap.get? g = some gd) :
    getGroup (setGroup s g fn) g = some (fn gd) := by
  unfold getGroup setGroup
  rw [h]
  dsimp only
  rw [List.get?_eq_getElem?] at h ⊢
  rw [List.getElem?_set_self (List.getElem?_eq_some.1 h).1]

theorem getGroup_setGroup_ne {s : St} {g g' : GId}
    (fn : GroupData → GroupData) (h : g' ≠ g) :
    getGroup (setGroup s g fn) g' = getGroup s g' := by
  unfold getGroup setGroup
  cases hg : s.heap.get? g with
  | none => rfl
  | some gd =>
    dsimp only
    rw [List.get?_eq_getElem?, List.get?_eq_getElem?]
    rw [List.getElem?_set_ne (Ne.symm h)]

end OpLemmas

section WFLemmas

theorem WF_emptySt : WF emptySt := by
  constructor <;> intro kv hkv <;> simp [emptySt] at hkv

theorem heap_length_setGroup (s : St) (g : GId) (fn : GroupData → GroupData) :
    (setGroup s g fn).heap.length = s.heap.length := by
  unfold setGroup
  cases s.heap.get? g with
  | none => rfl
  | some gd => simp

theorem WF_setGroup {s : St} (g : GId) (fn : GroupData → GroupData)
    (h : WF s) : WF (setGroup s g fn) := by
  constructor
  · intro kv hkv
    rw [setGroup_meta] at hkv
    exact h.1 kv hkv
  · intro kv hkv e he
    rw [setGroup_meta] at hkv
    rw [heap_length_setGroup]
    exact h.2 kv hkv e he

theorem WF_ensureType {s : St} (k : Nat) (h : WF s) : WF (ensureType s k) := by
  cases hm : metaGet s k with
  | some i => rw [ensureType_of_isSome (by rw [hm]; rfl)]; exact h
  | none =>
    have hmeta : (ensureType s k).meta = s.meta ++ [(k, [])] := by
      unfold ensureType
      rw [hm]
    have hheap := heap_ensureType s k
    constructor
    · intro kv hkv
      rw [hmeta] at hkv
      rcases List.mem_append.1 hkv with hkv | hkv
      · exact h.1 kv hkv
      · simp at hkv
        subst hkv
        simp
    · intro kv hkv e he
      rw [hmeta] at hkv
      rw [hheap]
      rcases List.mem_append.1 hkv with hkv | hkv
      · exact h.2 kv hkv e he
      · simp at hkv
        subst hkv
        simp at he

theorem mem_meta_of_metaGet {s : St} {k : Nat} {inner : List (String × GId)}
    (h : metaGet s k = some inner) : ∃ kv ∈ s.meta, kv.2 = inner := by
  unfold metaGet mget at h
  rw [Option.map_eq_some'] at h
  obtain ⟨kv, hfind, hsnd⟩ := h
  exact ⟨kv, List.mem_of_find?_eq_some hfind, hsnd⟩

theorem WF_addEntry {s : St} (k : Nat) (f : String) (h : WF s) :
    WF (addEntry s k f) := by
  cases hm : metaGet s k with
  | none => rw [addEntry_of_metaGet_none hm]; exact h
  | some inner =>
    cases hl : inner.lookup f with
    | some g0 =>
      rw [addEntry_of_entry_some (show entry s k f = some g0 by
        simp [entry, hm, hl])]
      exact h
    | none =>
      rw [metaGet_addEntry_grow hm hl]
      obtain ⟨kv0, hkv0, hsnd0⟩ := mem_meta_of_metaGet hm
      have hinnerNodup : (inner.map Prod.snd).Nodup := by
        rw [← hsnd0]; exact h.1 kv0 hkv0
      have hinnerBound : ∀ e ∈ inner, e.2 < s.heap.length := by
        intro e he
        apply h.2 kv0 hkv0
        rw [hsnd0]; exact he
      constructor
      · intro kv hkv
        dsimp only at hkv
        unfold outerSet at hkv
        rw [List.mem_map] at hkv
        obtain ⟨kv1, hkv1, heq⟩ := hkv
        by_cases hk1 : kv1.1 = k
        · rw [if_pos hk1] at heq
          subst heq
          dsimp only
          rw [List.map_append, List.nodup_append]
          refine ⟨hinnerNodup, by simp, ?_⟩
          intro x hx hmem
          simp only [List.map_cons, List.map_nil, List.mem_singleton] at hmem
          subst hmem
          rw [List.mem_map] at hx
          obtain ⟨e, he, hex⟩ := hx
          have hlt := hinnerBound e he
          exact absurd hex (Nat.ne_of_lt hlt)
        · rw [if_neg hk1] at heq
          subst heq
          exact h.1 kv1 hkv1
      · intro kv hkv e he
        dsimp only at hkv ⊢
        unfold outerSet at hkv
        rw [List.mem_map] at hkv
        obtain ⟨kv1, hkv1, heq⟩ := hkv
        rw [List.length_append]
        by_cases hk1 : kv1.1 = k
        · rw [if_pos hk1] at heq
          subst heq
          dsimp only at he
          rcases List.mem_append.1 he with he | he
          · have hb := hinnerBound e he
            exact Nat.lt_of_lt_of_le hb (Nat.le_add_right _ _)
          · simp only [List.mem_singleton] at he
            subst he
            exact Nat.lt_add_of_pos_right (by decide)
        · rw [if_neg hk1] at heq
          subst heq
          have hb := h.2 kv1 hkv1 e he
          exact Nat.lt_of_lt_of_le hb (Nat.le_add_right _ _)

theorem WF_foldAdd {s : St} {k : Nat} {fs : List String} (h : WF s) :
    WF (foldAdd k s fs) := by
  induction fs generalizing s with
  | nil => exact h
  | cons f rest ih => exact ih (WF_addEntry k f h)

theorem WF_initializeMetadata {s : St} (t : Ty) (fid : FormIdType)
    (h : WF s) : WF (initializeMetadata t fid s) := by
  rw [initializeMetadata_eq]
  exact WF_foldAdd (WF_ensureType t.key h)

theorem nodup_snd_of_metaGet {s : St} {k : Nat}
    {inner : List (String × GId)} (hWF : WF s)
    (h : metaGet s k = some inner) : (inner.map Prod.snd).Nodup := by
  obtain ⟨kv, hkv, hsnd⟩ := mem_meta_of_metaGet h
  rw [← hsnd]
  exact hWF.1 kv hkv

theorem entry_lt_heap {s : St} {k : Nat} {f : String} {g : GId}
    (hWF : WF s) (h : entry s k f = some g) : g < s.heap.length := by
  unfold entry at h
  cases hm : metaGet s k with
  | none => rw [hm] at h; simp at h
  | some inner =>
    rw [hm] at h
    simp only [Option.some_bind] at h
    obtain ⟨kv, hkv, hsnd⟩ := mem_meta_of_metaGet hm
    have hmem : g ∈ inner.map Prod.snd := mem_snd_of_lookup h
    rw [List.mem_map] at hmem
    obtain ⟨e, he, heg⟩ := hmem
    have hb := hWF.2 kv hkv e (by rw [hsnd]; exact he)
    exact heg ▸ hb

end WFLemmas

section ReduceLemmas

theorem childValue_ctrl (s : St) (cd : FormControlData) :
    childValue s (.ctrl cd) = cd.value := by
  simp [childValue, childValueF]

theorem childAsyncVals_ctrl (s : St) (cd : FormControlData) :
    childAsyncVals s (.ctrl cd) = cd.asyncVals := rfl

theorem initializeMetadata_noop_single {s : St} {t : Ty} {fid : FormIdType}
    {v : String} {inner : List (String × GId)} {g : GId}
    (hnorm : normalizeFormId t fid = [v])
    (hm : metaGet s t.key = some inner) (hg : inner.lookup v = some g) :
    initializeMetadata t fid s = s := by
  apply initializeMetadata_noop (by rw [hm]; rfl)
  rw [hnorm]
  intro f hf
  simp only [List.mem_singleton] at hf
  subst hf
  simp [entry, hm, hg]

theorem applyToGroups_singleton (fn : St → GId → Except Unit St) (s : St)
    (g : GId) : applyToGroups fn s [some g] = fn s g := by
  cases h : fn s g <;> simp [applyToGroups, h]

theorem FormControlTarget_reduce {s : St} {t : Ty} {fid : FormIdType}
    {v : String} {inner : List (String × GId)} {g : GId}
    (hnorm : normalizeFormId t fid = [v])
    (hm : metaGet s t.key = some inner) (hg : inner.lookup v = some g)
    (p : String) (vs : List Nat) :
    FormControlTarget t p vs fid s = fctStep t p vs s g := by
  unfold FormControlTarget
  rw [initializeMetadata_noop_single hnorm hm hg]
  dsimp only
  rw [getFormGroups_single hnorm hm, hg]
  exact applyToGroups_singleton _ _ _

theorem FormGroupValidators_reduce {s : St} {t : Ty} {fid : FormIdType}
    {v : String} {inner : List (String × GId)} {g : GId}
    (hnorm : normalizeFormId t fid = [v])
    (hm : metaGet s t.key = some inner) (hg : inner.lookup v = some g)
    (vs : List Nat) :
    FormGroupValidators t vs fid s
      = .ok (setGroup s g (groupAddValidators vs)) := by
  unfold FormGroupValidators
  rw [initializeMetadata_noop_single hnorm hm hg]
  dsimp only
  rw [getFormGroups_single hnorm hm, hg]
  exact applyToGroups_singleton _ _ _

theorem NestedFormGroup_reduce {s : St} {host : Ty} {targetFid : FormIdType}
    {v : String} {inner : List (String × GId)} {g : GId}
    (hnorm : normalizeFormId host targetFid = [v])
    (hm : metaGet s host.key = some inner) (hg : inner.lookup v = some g)
    (p : String) (src : Ty) (srcFid : Option String) :
    NestedFormGroup host p src srcFid targetFid s
      = nfgStep src srcFid p s g := by
  unfold NestedFormGroup
  rw [initializeMetadata_noop_single hnorm hm hg]
  dsimp only
  rw [getFormGroups_single hnorm hm, hg]
  exact applyToGroups_singleton _ _ _

end ReduceLemmas

/-- Claim C8: initializeMetadata is idempotent (running it twice leaves the
registry exactly as running it once) and non-destructive: every (type key,
form id) entry present before still maps to the same group identifier
afterwards — the existing tree object is never replaced — and every existing
heap object is unchanged, so earlier references keep observing the same
group.  The operation is total (it always succeeds). -/
theorem claim_C8 (t : Ty) (fid : FormIdType) (s : St) :
    initializeMetadata t fid (initializeMetadata t fid s)
        = initializeMetadata t fid s
    ∧ (∀ f0 g0, entry s t.key f0 = some g0 →
        entry (initializeMetadata t fid s) t.key f0 = some g0)
    ∧ (∀ g0 gd0, s.heap.get? g0 = some gd0 →
        (initializeMetadata t fid s).heap.get? g0 = some gd0) := by
  refine ⟨?_, fun f0 g0 h => entry_initializeMetadata_preserve h,
    fun g0 gd0 h => heap_initializeMetadata_preserve h⟩
  have hkey : (metaGet (initializeMetadata t fid s) t.key).isSome := by
    rw [initializeMetadata_eq]
    apply foldAdd_metaGet_isSome
    rw [metaGet_ensureType_self]
    rfl
  apply initializeMetadata_noop hkey
  rw [initializeMetadata_eq]
  apply foldAdd_establishes
  rw [metaGet_ensureType_self]
  rfl

/-- Witness for C8 at a concrete registry holding entry ("x" ↦ group 0). -/
theorem claim_C8_witness :
    initializeMetadata ⟨0, "T", []⟩ (.one "v")
        (initializeMetadata ⟨0, "T", []⟩ (.one "v")
          (St.mk [emptyGroup] [(0, [("x", 0)])]))
      = initializeMetadata ⟨0, "T", []⟩ (.one "v")
          (St.mk [emptyGroup] [(0, [("x", 0)])])
    ∧ entry (initializeMetadata ⟨0, "T", []⟩ (.one "v")
          (St.mk [emptyGroup] [(0, [("x", 0)])])) 0 "x" = some 0
    ∧ (initializeMetadata ⟨0, "T", []⟩ (.one "v")
          (St.mk [emptyGroup] [(0, [("x", 0)])])).heap.get? 0
        = some emptyGroup :=
  ⟨(claim_C8 ⟨0, "T", []⟩ (.one "v") (St.mk [emptyGroup] [(0, [("x", 0)])])).1,
    (claim_C8 ⟨0, "T", []⟩ (.one "v")
      (St.mk [emptyGroup] [(0, [("x", 0)])])).2.1 "x" 0 rfl,
    (claim_C8 ⟨0, "T", []⟩ (.one "v")
      (St.mk [emptyGroup] [(0, [("x", 0)])])).2.2 0 emptyGroup rfl⟩

/-- Claim C1: re-applying FormControlTarget on a (type, variant) whose tree
already holds a leaf control for the field replaces that control by a fresh
one whose synchronous validators are exactly the new ones, while the
previous control's asynchronous validators are carried over onto the
replacement (and its current value is kept). -/
theorem claim_C1 (s : St) (t : Ty) (v p : String) (newRules : List Nat)
    (inner : List (String × GId)) (g : GId) (gd : GroupData)
    (c : FormControlData)
    (hv1 : v ≠ "") (hv2 : v ≠ DEFAULT_GROUP)
    (hm : metaGet s t.key = some inner) (hg : inner.lookup v = some g)
    (hheap : s.heap.get? g = some gd)
    (hc : gd.controls.lookup p = some (.ctrl c)) :
    FormControlTarget t p newRules (.one v) s
        = .ok (setGroup s g (fun gd0 =>
            groupAddControl p (.ctrl ⟨c.value, newRules, c.asyncVals⟩)
              (groupRemoveControl p gd0)))
    ∧ getGroup (setGroup s g (fun gd0 =>
          groupAddControl p (.ctrl ⟨c.value, newRules, c.asyncVals⟩)
            (groupRemoveControl p gd0))) g
        = some (groupAddControl p (.ctrl ⟨c.value, newRules, c.asyncVals⟩)
            (groupRemoveControl p gd))
    ∧ (groupAddControl p (.ctrl ⟨c.value, newRules, c.asyncVals⟩)
          (groupRemoveControl p gd)).controls.lookup p
        = some (.ctrl ⟨c.value, newRules, c.asyncVals⟩) := by
  have hnorm := normalizeFormId_one (t := t) hv1 hv2
  have hlookNew :
      (groupAddControl p (.ctrl ⟨c.value, newRules, c.asyncVals⟩)
          (groupRemoveControl p gd)).controls.lookup p
        = some (.ctrl ⟨c.value, newRules, c.asyncVals⟩) := by
    unfold groupAddControl groupRemoveControl
    dsimp only
    rw [lookup_filter_self]
    dsimp only
    rw [lookup_append_of_none lookup_filter_self]
    simp [List.lookup]
  refine ⟨?_, getGroup_setGroup_self _ hheap, hlookNew⟩
  rw [FormControlTarget_reduce hnorm hm hg p newRules]
  unfold fctStep
  rw [show getGroup s g = some gd from hheap]
  dsimp only
  rw [hc]
  dsimp only
  rw [childValue_ctrl, childAsyncVals_ctrl]

/-- Witness for C1: the leaf "p" carries async validator 9; re-annotating
with synchronous rule 2 keeps 9 on the replacement. -/
theorem claim_C1_witness :
    FormControlTarget ⟨0, "T", [("p", .num 0)]⟩ "p" [2] (.one "v")
        (St.mk
          [GroupData.mk [("p", .ctrl ⟨.num 7, [1], [9]⟩)] [] []]
          [(0, [("v", 0)])])
        = .ok (setGroup
            (St.mk
              [GroupData.mk [("p", .ctrl ⟨.num 7, [1], [9]⟩)] [] []]
              [(0, [("v", 0)])]) 0 (fun gd0 =>
            groupAddControl "p" (.ctrl ⟨.num 7, [2], [9]⟩)
              (groupRemoveControl "p" gd0)))
    ∧ getGroup (setGroup
          (St.mk
            [GroupData.mk [("p", .ctrl ⟨.num 7, [1], [9]⟩)] [] []]
            [(0, [("v", 0)])]) 0 (fun gd0 =>
          groupAddControl "p" (.ctrl ⟨.num 7, [2], [9]⟩)
            (groupRemoveControl "p" gd0))) 0
        = some (groupAddControl "p" (.ctrl ⟨.num 7, [2], [9]⟩)
            (groupRemoveControl "p"
              (GroupData.mk [("p", .ctrl ⟨.num 7, [1], [9]⟩)] [] [])))
    ∧ (groupAddControl "p" (.ctrl ⟨.num 7, [2], [9]⟩)
          (groupRemoveControl "p"
            (GroupData.mk [("p", .ctrl ⟨.num 7, [1], [9]⟩)] [] []))).controls.lookup "p"
        = some (.ctrl ⟨.num 7, [2], [9]⟩) :=
  claim_C1
    (St.mk [GroupData.mk [("p", .ctrl ⟨.num 7, [1], [9]⟩)] [] []]
      [(0, [("v", 0)])])
    ⟨0, "T", [("p", .num 0)]⟩ "v" "p" [2] [("v", 0)] 0
    (GroupData.mk [("p", .ctrl ⟨.num 7, [1], [9]⟩)] [] []) ⟨.num 7, [1], [9]⟩
    (by decide) (by decide) rfl rfl rfl rfl

/-- Claim C10: when FormControlTarget re-registers a field already present
as a leaf, the replacement control's initial value is the previous control's
current value (here .num 7, different from the default-instance value), not
a value re-read from a fresh instance; only for an absent field is the
initial value read from a freshly constructed default instance. -/
theorem claim_C10 (s : St) (t : Ty) (v p q : String) (rules : List Nat)
    (inner : List (String × GId)) (g : GId) (gd : GroupData)
    (c : FormControlData)
    (hv1 : v ≠ "") (hv2 : v ≠ DEFAULT_GROUP)
    (hm : metaGet s t.key = some inner) (hg : inner.lookup v = some g)
    (hheap : s.heap.get? g = some gd)
    (hp : gd.controls.lookup p = some (.ctrl c))
    (hq : gd.controls.lookup q = none) :
    FormControlTarget t p rules (.one v) s
        = .ok (setGroup s g (fun gd0 =>
            groupAddControl p (.ctrl ⟨c.value, rules, c.asyncVals⟩)
              (groupRemoveControl p gd0)))
    ∧ FormControlTarget t q rules (.one v) s
        = .ok (setGroup s g
            (groupAddControl q (.ctrl ⟨newInstanceRead t q, rules, []⟩))) := by
  constructor
  · rw [FormControlTarget_reduce (normalizeFormId_one hv1 hv2) hm hg p rules]
    unfold fctStep
    rw [show getGroup s g = some gd from hheap]
    dsimp only
    rw [hp]
    dsimp only
    rw [childValue_ctrl, childAsyncVals_ctrl]
  · rw [FormControlTarget_reduce (normalizeFormId_one hv1 hv2) hm hg q rules]
    unfold fctStep
    rw [show getGroup s g = some gd from hheap]
    dsimp only
    rw [hq]

/-- Witness for C10: the leaf "p" currently holds .num 7 while the default
instance holds .num 0 for "p" and .num 3 for "q"; re-annotating "p" keeps
.num 7, annotating the absent "q" reads .num 3 from the fresh instance. -/
theorem claim_C10_witness :
    FormControlTarget ⟨0, "T", [("p", .num 0), ("q", .num 3)]⟩ "p" [2]
        (.one "v")
        (St.mk [GroupData.mk [("p", .ctrl ⟨.num 7, [1], [9]⟩)] [] []]
          [(0, [("v", 0)])])
        = .ok (setGroup
            (St.mk [GroupData.mk [("p", .ctrl ⟨.num 7, [1], [9]⟩)] [] []]
              [(0, [("v", 0)])]) 0 (fun gd0 =>
            groupAddControl "p" (.ctrl ⟨.num 7, [2], [9]⟩)
              (groupRemoveControl "p" gd0)))
    ∧ FormControlTarget ⟨0, "T", [("p", .num 0), ("q", .num 3)]⟩ "q" [2]
        (.one "v")
        (St.mk [GroupData.mk [("p", .ctrl ⟨.num 7, [1], [9]⟩)] [] []]
          [(0, [("v", 0)])])
        = .ok (setGroup
            (St.mk [GroupData.mk [("p", .ctrl ⟨.num 7, [1], [9]⟩)] [] []]
              [(0, [("v", 0)])]) 0
            (groupAddControl "q"
              (.ctrl ⟨newInstanceRead ⟨0, "T", [("p", .num 0), ("q", .num 3)]⟩ "q",
                [2], []⟩))) :=
  claim_C10
    (St.mk [GroupData.mk [("p", .ctrl ⟨.num 7, [1], [9]⟩)] [] []]
      [(0, [("v", 0)])])
    ⟨0, "T", [("p", .num 0), ("q", .num 3)]⟩ "v" "p" "q" [2] [("v", 0)] 0
    (GroupData.mk [("p", .ctrl ⟨.num 7, [1], [9]⟩)] [] []) ⟨.num 7, [1], [9]⟩
    (by decide) (by decide) rfl rfl rfl rfl rfl

/-- Claim C7: variant isolation.  With both the default variant (key
t.name ↦ gD) and a distinct variant V (↦ gV) registered, applying the
class-level FormGroupValidators or the field-level FormControlTarget
decorator targeting only V leaves the default variant's group object
untouched on the heap, and symmetrically applying them to the default
variant leaves V's group object untouched. -/
theorem claim_C7 (s : St) (t : Ty) (V p : String) (vs : List Nat)
    (inner : List (String × GId)) (gD gV : GId)
    (hWF : WF s)
    (hV1 : V ≠ "") (hV2 : V ≠ DEFAULT_GROUP) (hVn : V ≠ t.name)
    (hm : metaGet s t.key = some inner)
    (hD : inner.lookup t.name = some gD)
    (hVg : inner.lookup V = some gV) :
    FormGroupValidators t vs (.one V) s
        = .ok (setGroup s gV (groupAddValidators vs))
    ∧ (setGroup s gV (groupAddValidators vs)).heap.get? gD = s.heap.get? gD
    ∧ (∀ s1, FormControlTarget t p vs (.one V) s = .ok s1 →
        s1.heap.get? gD = s.heap.get? gD)
    ∧ (∀ s1, FormGroupValidators t vs .undefVal s = .ok s1 →
        s1.heap.get? gV = s.heap.get? gV)
    ∧ (∀ s1, FormControlTarget t p vs .undefVal s = .ok s1 →
        s1.heap.get? gV = s.heap.get? gV) := by
  have hne : gV ≠ gD :=
    lookup_ne_of_nodup_snd (nodup_snd_of_metaGet hWF hm) hVg hD hVn
  have hnormV := normalizeFormId_one (t := t) hV1 hV2
  have hnormD := normalizeFormId_undef t
  refine ⟨FormGroupValidators_reduce hnormV hm hVg vs,
    getGroup_setGroup_ne _ (Ne.symm hne), ?_, ?_, ?_⟩
  · intro s1 h1
    rw [FormControlTarget_reduce hnormV hm hVg p vs] at h1
    unfold fctStep at h1
    cases hgd : getGroup s gV with
    | none =>
      rw [hgd] at h1
      cases h1
      rfl
    | some gd =>
      rw [hgd] at h1
      dsimp only at h1
      cases hc : gd.controls.lookup p with
      | none =>
        rw [hc] at h1
        cases h1
        exact getGroup_setGroup_ne _ (Ne.symm hne)
      | some child =>
        rw [hc] at h1
        cases h1
        exact getGroup_setGroup_ne _ (Ne.symm hne)
  · intro s1 h1
    rw [FormGroupValidators_reduce hnormD hm hD vs] at h1
    cases h1
    exact getGroup_setGroup_ne _ hne
  · intro s1 h1
    rw [FormControlTarget_reduce hnormD hm hD p vs] at h1
    unfold fctStep at h1
    cases hgd : getGroup s gD with
    | none =>
      rw [hgd] at h1
      cases h1
      rfl
    | some gd =>
      rw [hgd] at h1
      dsimp only at h1
      cases hc : gd.controls.lookup p with
      | none =>
        rw [hc] at h1
        cases h1
        exact getGroup_setGroup_ne _ hne
      | some child =>
        rw [hc] at h1
        cases h1
        exact getGroup_setGroup_ne _ hne

/-- Witness for C7: two registered variants "T" (default, group 0) and "V"
(group 1); targeting "V" leaves group 0 unchanged, and conversely. -/
theorem claim_C7_witness :
    FormGroupValidators ⟨0, "T", []⟩ [5] (.one "V")
        (St.mk [emptyGroup, emptyGroup] [(0, [("T", 0), ("V", 1)])])
        = .ok (setGroup
            (St.mk [emptyGroup, emptyGroup] [(0, [("T", 0), ("V", 1)])]) 1
            (groupAddValidators [5]))
    ∧ (setGroup (St.mk [emptyGroup, emptyGroup] [(0, [("T", 0), ("V", 1)])])
          1 (groupAddValidators [5])).heap.get? 0
        = (St.mk [emptyGroup, emptyGroup]
            [(0, [("T", 0), ("V", 1)])]).heap.get? 0
    ∧ ((FormControlTarget ⟨0, "T", []⟩ "p" [5] (.one "V")
          (St.mk [emptyGroup, emptyGroup] [(0, [("T", 0), ("V", 1)])])).toOption.getD
            emptySt).heap.get? 0
        = (St.mk [emptyGroup, emptyGroup]
            [(0, [("T", 0), ("V", 1)])]).heap.get? 0
    ∧ ((FormGroupValidators ⟨0, "T", []⟩ [5] .undefVal
          (St.mk [emptyGroup, emptyGroup] [(0, [("T", 0), ("V", 1)])])).toOption.getD
            emptySt).heap.get? 1
        = (St.mk [emptyGroup, emptyGroup]
            [(0, [("T", 0), ("V", 1)])]).heap.get? 1 := by
  have h := claim_C7
    (St.mk [emptyGroup, emptyGroup] [(0, [("T", 0), ("V", 1)])])
    ⟨0, "T", []⟩ "V" "p" [5] [("T", 0), ("V", 1)] 0 1
    (by unfold WF; decide) (by decide) (by decide) (by decide) rfl rfl rfl
  exact ⟨h.1, h.2.1, h.2.2.1 _ rfl, h.2.2.2.1 _ rfl⟩

/-- Claim C6: NestedFormGroup installs the very group object registered for
(sourceType, sourceVariant) as the host field: after installation, reading
field p of the host tree yields the same group identifier gS that a direct
toFormGroup lookup of (S, sv) yields, while a lookup of S's default variant
yields a different group identifier gD ≠ gS. -/
theorem claim_C6 (s : St) (H S : Ty) (hv sv p : String)
    (innerH innerS : List (String × GId)) (gH gS gD : GId) (gdH : GroupData)
    (hWF : WF s)
    (hhv1 : hv ≠ "") (hhv2 : hv ≠ DEFAULT_GROUP)
    (hsv1 : sv ≠ "") (hsv2 : sv ≠ DEFAULT_GROUP) (hsvn : sv ≠ S.name)
    (hmH : metaGet s H.key = some innerH) (hgH : innerH.lookup hv = some gH)
    (hheapH : s.heap.get? gH = some gdH)
    (hpabs : gdH.controls.lookup p = none)
    (hmS : metaGet s S.key = some innerS)
    (hgS : innerS.lookup sv = some gS)
    (hgD : innerS.lookup S.name = some gD) :
    NestedFormGroup H p S (some sv) (.one hv) s
        = .ok (setGroup s gH (groupAddControl p (.group gS)))
    ∧ getGroup (setGroup s gH (groupAddControl p (.group gS))) gH
        = some (groupAddControl p (.group gS) gdH)
    ∧ (groupAddControl p (.group gS) gdH).controls.lookup p
        = some (.group gS)
    ∧ toFormGroup (setGroup s gH (groupAddControl p (.group gS))) S (some sv)
        = .ok (some gS)
    ∧ toFormGroup (setGroup s gH (groupAddControl p (.group gS))) S none
        = .ok (some gD)
    ∧ gS ≠ gD := by
  have hne : gS ≠ gD :=
    lookup_ne_of_nodup_snd (nodup_snd_of_metaGet hWF hmS) hgS hgD hsvn
  refine ⟨?_, getGroup_setGroup_self _ hheapH, ?_, ?_, ?_, hne⟩
  · rw [NestedFormGroup_reduce (normalizeFormId_one hhv1 hhv2) hmH hgH p S
      (some sv)]
    unfold nfgStep
    rw [getFormGroups_single (normalizeFormId_one hsv1 hsv2) hmS, hgS]
    rfl
  · unfold groupAddControl
    rw [hpabs]
    dsimp only
    rw [lookup_append_of_none hpabs]
    simp [List.lookup]
  · unfold toFormGroup
    rw [metaGet_setGroup, hmS]
    dsimp only [toFormGroupKey]
    rw [if_neg hsv1, hgS]
  · unfold toFormGroup
    rw [metaGet_setGroup, hmS]
    dsimp only [toFormGroupKey]
    rw [hgD]

/-- Witness for C6: host variant "hv" of H is group 0, source S has default
group 1 and variant "sv" group 2; nesting "sv" under field "sup" stores
group 2, equal to the direct lookup and different from the default's 1. -/
theorem claim_C6_witness :
    NestedFormGroup ⟨0, "H", []⟩ "sup" ⟨1, "S", []⟩ (some "sv") (.one "hv")
        (St.mk [emptyGroup, emptyGroup, emptyGroup]
          [(0, [("hv", 0)]), (1, [("S", 1), ("sv", 2)])])
        = .ok (setGroup
            (St.mk [emptyGroup, emptyGroup, emptyGroup]
              [(0, [("hv", 0)]), (1, [("S", 1), ("sv", 2)])]) 0
            (groupAddControl "sup" (.group 2)))
    ∧ getGroup (setGroup
          (St.mk [emptyGroup, emptyGroup, emptyGroup]
            [(0, [("hv", 0)]), (1, [("S", 1), ("sv", 2)])]) 0
          (groupAddControl "sup" (.group 2))) 0
        = some (groupAddControl "sup" (.group 2) emptyGroup)
    ∧ (groupAddControl "sup" (.group 2) emptyGroup).controls.lookup "sup"
        = some (.group 2)
    ∧ toFormGroup (setGroup
          (St.mk [emptyGroup, emptyGroup, emptyGroup]
            [(0, [("hv", 0)]), (1, [("S", 1), ("sv", 2)])]) 0
          (groupAddControl "sup" (.group 2))) ⟨1, "S", []⟩ (some "sv")
        = .ok (some 2)
    ∧ toFormGroup (setGroup
          (St.mk [emptyGroup, emptyGroup, emptyGroup]
            [(0, [("hv", 0)]), (1, [("S", 1), ("sv", 2)])]) 0
          (groupAddControl "sup" (.group 2))) ⟨1, "S", []⟩ none
        = .ok (some 1)
    ∧ (2 : GId) ≠ 1 :=
  claim_C6
    (St.mk [emptyGroup, emptyGroup, emptyGroup]
      [(0, [("hv", 0)]), (1, [("S", 1), ("sv", 2)])])
    ⟨0, "H", []⟩ ⟨1, "S", []⟩ "hv" "sv" "sup" [("hv", 0)]
    [("S", 1), ("sv", 2)] 0 2 1 emptyGroup
    (by unfold WF; decide) (by decide) (by decide) (by decide) (by decide)
    (by decide) rfl rfl rfl rfl rfl rfl rfl

theorem lookupEach_ok {s : St} {k : Nat} {inner : List (String × GId)}
    (hm : metaGet s k = some inner) (fs : List String) :
    lookupEach s k fs = .ok (fs.map (fun f => inner.lookup f)) := by
  induction fs with
  | nil => rfl
  | cons f rest ih => simp [lookupEach, hm, ih]

/-- Claim C2 (evaluation at the failing input): after registering only the
default variant of T, the read accessors look the DEFAULT_GROUP sentinel up
literally instead of aliasing it to the type name: toFormGroup with the
sentinel yields undefined while omitting the name yields the tree, and
toFormGroups with the sentinel in its list yields an undefined entry.  The
decorator path does normalize it: re-initializing with the sentinel is a
no-op on the registered default variant. -/
theorem claim_C2 :
    toFormGroup (initializeMetadata ⟨0, "T", []⟩ .undefVal emptySt)
        ⟨0, "T", []⟩ (some DEFAULT_GROUP) = .ok none
    ∧ toFormGroup (initializeMetadata ⟨0, "T", []⟩ .undefVal emptySt)
        ⟨0, "T", []⟩ none = .ok (some 0)
    ∧ toFormGroups (initializeMetadata ⟨0, "T", []⟩ .undefVal emptySt)
        ⟨0, "T", []⟩ [DEFAULT_GROUP] = .ok (.arr [none])
    ∧ initializeMetadata ⟨0, "T", []⟩ (.one DEFAULT_GROUP)
        (initializeMetadata ⟨0, "T", []⟩ .undefVal emptySt)
      = initializeMetadata ⟨0, "T", []⟩ .undefVal emptySt :=
  ⟨rfl, rfl, rfl, rfl⟩

/-- Claim C3 (counterexample): looking up a type that has never been
registered does not yield an absent result — it raises (reading a property
of undefined), both in toFormGroup and in toFormGroups with a nonempty
variant-name list. -/
theorem claim_C3_counterexample :
    toFormGroup emptySt ⟨0, "T", []⟩ none = .error ()
    ∧ toFormGroups emptySt ⟨0, "T", []⟩ ["x"] = .error () :=
  ⟨rfl, rfl⟩

/-- Claim C3 (amended): for a type that has a registry slot, the accessors
never raise and never fabricate a tree: toFormGroup returns exactly the
slot's lookup (undefined for an uninitialized variant), toFormGroups with a
nonempty list returns the per-name lookups (undefined entries for missing
names), and with an empty list returns the slot itself; for a type with no
slot, only the empty-list toFormGroups call avoids the error, returning
undefined.  (The accessors are pure reads of the state, so no tree can be
fabricated by them.) -/
theorem claim_C3 (s : St) (t : Ty) (fid : Option String) (f0 : String)
    (fids : List String) (inner : List (String × GId))
    (hm : metaGet s t.key = some inner) :
    toFormGroup s t fid = .ok (inner.lookup (toFormGroupKey t fid))
    ∧ toFormGroups s t (f0 :: fids)
        = .ok (.arr ((f0 :: fids).map (fun f => inner.lookup f)))
    ∧ toFormGroups s t [] = .ok (.record inner)
    ∧ (∀ t2 : Ty, metaGet s t2.key = none →
        toFormGroups s t2 [] = .ok .undefRes) := by
  refine ⟨?_, ?_, ?_, ?_⟩
  · unfold toFormGroup
    rw [hm]
  · unfold toFormGroups
    rw [lookupEach_ok hm]
  · unfold toFormGroups
    rw [hm]
  · intro t2 h2
    unfold toFormGroups
    rw [h2]

/-- Witness for the amended C3 on a registry where T maps "T" to group 0. -/
theorem claim_C3_witness :
    toFormGroup (St.mk [emptyGroup] [(0, [("T", 0)])]) ⟨0, "T", []⟩
        (some "nope") = .ok none
    ∧ toFormGroups (St.mk [emptyGroup] [(0, [("T", 0)])]) ⟨0, "T", []⟩
        ["T", "nope"] = .ok (.arr [some 0, none])
    ∧ toFormGroups (St.mk [emptyGroup] [(0, [("T", 0)])]) ⟨0, "T", []⟩ []
        = .ok (.record [("T", 0)])
    ∧ toFormGroups (St.mk [emptyGroup] [(0, [("T", 0)])]) ⟨1, "U", []⟩ []
        = .ok .undefRes := by
  have h := claim_C3 (St.mk [emptyGroup] [(0, [("T", 0)])]) ⟨0, "T", []⟩
    (some "nope") "T" ["nope"] [("T", 0)] rfl
  exact ⟨h.1, h.2.1, h.2.2.1, h.2.2.2 ⟨1, "U", []⟩ rfl⟩

/-- Claim C4 (evaluation at the failing input): nesting a source type that
has no registry slot at all raises (reading a property of undefined inside
getFormGroups) instead of completing silently; only a source type whose
slot exists but lacks the requested variant is silently skipped, leaving
the host state unchanged with no field installed. -/
theorem claim_C4 :
    NestedFormGroup ⟨0, "H", []⟩ "p" ⟨1, "S", []⟩ none .undefVal
        (initializeMetadata ⟨0, "H", []⟩ .undefVal emptySt) = .error ()
    ∧ NestedFormGroup ⟨0, "H", []⟩ "p" ⟨1, "S", []⟩ (some "sv") .undefVal
        (initializeMetadata ⟨1, "S", []⟩ .undefVal
          (initializeMetadata ⟨0, "H", []⟩ .undefVal emptySt))
      = .ok (initializeMetadata ⟨1, "S", []⟩ .undefVal
          (initializeMetadata ⟨0, "H", []⟩ .undefVal emptySt)) :=
  ⟨rfl, rfl⟩

/-- Claim C5 (evaluation at the failing input): with T registered under the
two variant names "T" and "v", toFormGroups with an empty name list returns
the registry record keyed by variant name — not an array (Array.isArray is
false on it) — while a nonempty list does return an array of the requested
trees in the requested order, with undefined entries for unknown names. -/
theorem claim_C5 :
    toFormGroups
        (initializeMetadata ⟨0, "T", []⟩ (.one "v")
          (initializeMetadata ⟨0, "T", []⟩ .undefVal emptySt)) ⟨0, "T", []⟩ []
        = .ok (.record [("T", 0), ("v", 1)])
    ∧ (toFormGroups
        (initializeMetadata ⟨0, "T", []⟩ (.one "v")
          (initializeMetadata ⟨0, "T", []⟩ .undefVal emptySt)) ⟨0, "T", []⟩
        []).map TFGResult.isArr = .ok false
    ∧ toFormGroups
        (initializeMetadata ⟨0, "T", []⟩ (.one "v")
          (initializeMetadata ⟨0, "T", []⟩ .undefVal emptySt)) ⟨0, "T", []⟩
        ["T", "v"] = .ok (.arr [some 0, some 1])
    ∧ toFormGroups
        (initializeMetadata ⟨0, "T", []⟩ (.one "v")
          (initializeMetadata ⟨0, "T", []⟩ .undefVal emptySt)) ⟨0, "T", []⟩
        ["v", "nope"] = .ok (.arr [some 1, none]) :=
  ⟨rfl, rfl, rfl, rfl⟩

/-- Claim C9 (counterexample): a decorator given an empty variant-name
array does change the registry when the type has no slot yet: it creates
the type's empty top-level slot, so the state is not unchanged. -/
theorem claim_C9_counterexample :
    FormGroupValidators ⟨0, "T", []⟩ [5] (.many []) emptySt
        = .ok (St.mk [] [(0, [])])
    ∧ St.mk [] [(0, [])] ≠ emptySt :=
  ⟨rfl, by simp [emptySt]⟩

/-- Claim C9 (amended): every decorator operation given an empty
variant-name array targets zero variants: it creates no tree, mutates no
tree and touches no existing (type, variant) entry — the heap and all
entries are unchanged — but it still creates the type's empty top-level
registry slot when that slot is absent (so the registry state is unchanged
only when the type already has a slot). -/
theorem claim_C9 (s : St) (t src : Ty) (p : String) (vs : List Nat)
    (ssv : Option String) :
    FormGroupTarget t (.many []) s = .ok (ensureType s t.key)
    ∧ FormGroupValidators t vs (.many []) s = .ok (ensureType s t.key)
    ∧ FormGroupAsyncValidators t vs (.many []) s = .ok (ensureType s t.key)
    ∧ FormControlTarget t p vs (.many []) s = .ok (ensureType s t.key)
    ∧ FormControlAsyncValidators t p vs (.many []) s
        = .ok (ensureType s t.key)
    ∧ NestedFormGroup t p src ssv (.many []) s = .ok (ensureType s t.key)
    ∧ (ensureType s t.key).heap = s.heap
    ∧ (∀ k f, entry (ensureType s t.key) k f = entry s k f) := by
  refine ⟨rfl, rfl, rfl, rfl, rfl, rfl, heap_ensureType s t.key, ?_⟩
  intro k f
  cases hm : metaGet s t.key with
  | some inner => rw [ensureType_of_isSome (by rw [hm]; rfl)]
  | none =>
    have hmeta : (ensureType s t.key).meta = s.meta ++ [(t.key, [])] := by
      unfold ensureType
      rw [hm]
    by_cases hk : k = t.key
    · subst hk
      unfold entry metaGet
      rw [hmeta, mget_append_single_self hm]
      unfold metaGet at hm
      rw [hm]
      simp [List.lookup]
    · unfold entry metaGet
      rw [hmeta, mget_append_single_ne hk]

end NgxForms
